import Mathlib

/-!
Verification of the BEERS2 flowcell / cluster / sequence-by-synthesis core.

Shallow embedding of:
- src/beers/cluster.py        (Cluster: base calling, serialization)
- src/beers/flowcell.py       (Flowcell: retention, lane partition, coordinates, validate)
- src/beers/sequence/sequence_by_synthesis_step.py (phasing matrix, smearing)

Python machine integers are modelled as ℤ/ℕ, floats as ℚ/ℝ, fallible code as
Option/Except.  Dynamically-typed fields that the code stores with differing
runtime types are modelled with the `PyVal` sum type.
-/

/-- Python runtime value for dynamically typed fields: the Cluster constructor
accepts ints, strings or booleans for some fields so a faithful model keeps the
runtime tag. -/
inductive PyVal where
  | int (n : ℤ)
  | str (s : String)
  | bool (b : Bool)
deriving DecidableEq, Repr

/-- Rendering of a PyVal inside a Python f-string. -/
def PyVal.fmt : PyVal → String
  | .int n => toString n
  | .str s => s
  | .bool b => if b then "True" else "False"

/-- Split a character list at every occurrence of `sep` (the behaviour of
Python str.split(sep) for a single-character separator). -/
def splitOnChar (sep : Char) : List Char → List (List Char)
  | [] => [[]]
  | ch :: rest =>
    let r := splitOnChar sep rest
    if ch = sep then [] :: r
    else
      match r with
      | [] => [[ch]]
      | hd :: tl => (ch :: hd) :: tl

/-- Python str.rstrip() on a character list: drop trailing whitespace. -/
def rstripChars (l : List Char) : List Char :=
  (l.reverse.dropWhile (fun ch => ch.isWhitespace)).reverse

/-- Parse a nonempty all-digit character list as a natural number (the
digit-string case of Python int()). -/
def parseNatDigits : List Char → ℕ → Option ℕ
  | [], acc => some acc
  | ch :: rest, acc =>
    if ch.isDigit then parseNatDigits rest (acc * 10 + (ch.toNat - 48)) else none

/-- Python int() on the decimal strings this format produces: an optional
leading minus sign followed by digits. -/
def parseInt? (l : List Char) : Option ℤ :=
  match l with
  | [] => none
  | '-' :: rest =>
    if rest = [] then none else (parseNatDigits rest 0).map (fun n => -(n : ℤ))
  | _ => (parseNatDigits l 0).map (fun n => (n : ℤ))

/-- LaneCoordinates (from beers/flowcell_lane.py): a (tile, x, y) triple. -/
structure LaneCoordinates where
  tile : ℤ
  x : ℤ
  y : ℤ
deriving DecidableEq, Repr

/-- Modelled from the spec: `LaneCoordinates.serialize` is not under src/
(flowcell_lane.py is absent); per the spec the serialized LaneCoordinates is a
single line of the record that must round-trip exactly.  We use a
tab-separated rendering of the triple. -/
def LaneCoordinates.serialize (c : LaneCoordinates) : String :=
  toString c.tile ++ "\t" ++ toString c.x ++ "\t" ++ toString c.y

/-- Modelled from the spec: inverse of `LaneCoordinates.serialize`. -/
def LaneCoordinates.deserialize (data : String) : Option LaneCoordinates :=
  match splitOnChar '\t' data.data with
  | [t, x, y] =>
    match parseInt? t, parseInt? x, parseInt? y with
    | some tv, some xv, some yv => some ⟨tv, xv, yv⟩
    | _, _, _ => none
  | _ => none

/-- Molecule (src/lib/beers/molecule.py holds the class; its serialize /
deserialize pair is not under src/).  Fields follow the spec's data model:
lineage identifier, sequence, and source alignment metadata. -/
structure Molecule where
  moleculeId : ℤ
  sequence : String
  sourceStart : ℤ
  sourceCigar : String
  sourceStrand : String
deriving DecidableEq, Repr

/-- Modelled from the spec: `Molecule.serialize` is not under src/; per the
spec the serialized Molecule is a single line of the record that must
round-trip exactly.  We use a tab-separated rendering of the fields. -/
def Molecule.serialize (m : Molecule) : String :=
  toString m.moleculeId ++ "\t" ++ m.sequence ++ "\t" ++ toString m.sourceStart ++ "\t"
    ++ m.sourceCigar ++ "\t" ++ m.sourceStrand

/-- Modelled from the spec: inverse of `Molecule.serialize`. -/
def Molecule.deserialize (data : String) : Option Molecule :=
  match splitOnChar '\t' data.data with
  | [i, seq, st, cig, strand] =>
    match parseInt? i, parseInt? st with
    | some iv, some stv =>
      some ⟨iv, String.mk seq, stv, String.mk cig, String.mk strand⟩
    | _, _ => none
  | _ => none

/-- BaseCounts (cluster.py): per-position copy counts for the four channels,
in the order G, A, T, C. -/
structure BaseCounts where
  G : List ℤ
  A : List ℤ
  T : List ℤ
  C : List ℤ
deriving DecidableEq, Repr

/-- Cluster (cluster.py).  `clusterId` and `forwardIs5Prime` are `PyVal`
because `Cluster.deserialize` passes them through as raw strings while the
rest of the pipeline constructs them as int / bool. -/
structure Cluster where
  clusterId : PyVal
  runId : ℤ
  moleculeCount : ℤ
  diameter : ℤ
  lane : ℤ
  forwardIs5Prime : PyVal
  molecule : Molecule
  coordinates : LaneCoordinates
  baseCounts : BaseCounts
  calledSequences : List String
  calledIndices : List String
  qualityScores : List String
deriving DecidableEq, Repr

/-- Cluster.MIN_ASCII -/
def MIN_ASCII : ℕ := 33

/-- Cluster.MAX_QUALITY -/
def MAX_QUALITY : ℤ := 41

/-- Cluster.get_base_counts_by_position: the (G, A, T, C) counts at one
position.  Positions are always in range at call sites (numpy would raise
otherwise); out-of-range reads default to 0 here and theorems carry in-range
hypotheses. -/
def Cluster.getBaseCountsByPosition (cl : Cluster) (index : ℕ) : ℤ × ℤ × ℤ × ℤ :=
  (cl.baseCounts.G.getD index 0, cl.baseCounts.A.getD index 0,
   cl.baseCounts.T.getD index 0, cl.baseCounts.C.getD index 0)

/-- One step of Python `max(..., key=...)` over (base, count) pairs: the
running maximum is replaced only when the new count is strictly greater. -/
def pyMaxPair (p q : Char × ℤ) : Char × ℤ :=
  if p.2 < q.2 then q else p

/-- Python `max(base_counts, key=...)` over the nonempty list
`[(G,g),(A,a),(T,t),(C,c)]`: first element is the initial value, ties keep
the earlier element. -/
def pyMaxBaseCounts (g a t c : ℤ) : Char × ℤ :=
  [('A', a), ('T', t), ('C', c)].foldl pyMaxPair ('G', g)

/-- quality_value from Cluster.read_over_range:
`min(MAX_QUALITY, floor(-10*log10(prob))) if prob != 0 else MAX_QUALITY`
with `prob = other / molecule_count` (float division). -/
noncomputable def qualityValue (other mc : ℤ) : ℤ :=
  let prob : ℝ := (other : ℝ) / (mc : ℝ)
  if prob = 0 then MAX_QUALITY
  else min MAX_QUALITY (Int.floor ((-10 : ℝ) * Real.logb 10 prob))

/-- The Phred character written for a non-ambiguous call:
`chr(quality_value + MIN_ASCII)`. -/
noncomputable def qualityChar (other mc : ℤ) : Char :=
  Char.ofNat ((qualityValue other mc + MIN_ASCII).toNat)

/-- The loop body of Cluster.read_over_range for a single position:
returns the called base character and the quality character. -/
noncomputable def callPosition (g a t c mc : ℤ) : Char × Char :=
  let bcs : List (Char × ℤ) := [('G', g), ('A', a), ('T', t), ('C', c)]
  let mx := pyMaxBaseCounts g a t c
  let numberMaxValues := (bcs.filter (fun bc => bc.2 = mx.2)).length
  if 1 < numberMaxValues then
    ('N', Char.ofNat MIN_ASCII)
  else
    let other := ((bcs.filter (fun bc => bc.1 ≠ mx.1)).map Prod.snd).sum
    (mx.1, qualityChar other mc)

/-- The loop body of Cluster.read_over_range applied to one position of a
cluster. -/
noncomputable def callAt (cl : Cluster) (pos : ℕ) : Char × Char :=
  let bc := cl.getBaseCountsByPosition pos
  callPosition bc.1 bc.2.1 bc.2.2.1 bc.2.2.2 cl.moleculeCount

/-- Cluster.read_over_range: iterates positions `range_start ≤ p < range_end`,
accumulating the called-bases string and the quality string. -/
noncomputable def Cluster.readOverRange (cl : Cluster) (rangeStart rangeEnd : ℕ) :
    String × String :=
  (List.range' rangeStart (rangeEnd - rangeStart)).foldl
    (fun acc pos =>
      let r := callAt cl pos
      (acc.1.push r.1, acc.2.push r.2))
    ("", "")

/-! ## Flowcell coordinate generation (src/beers/flowcell.py, generate_coordinates)

The Python generator keeps a counter `ctr` that is incremented on every draw,
reset to 0 on every successful emission, and triggers
`raise BeersException(...)` once it reaches 100.  A single `next()` call
therefore runs the loop with a budget of 100 draws: `fuel` below equals
`100 - ctr`.  The randomness is a stream of draws `draws : ℕ → LaneCoordinates`
consumed at an advancing position. -/

/-- The loop of Flowcell.generate_coordinates between two yields, with `fuel`
remaining attempts (`fuel = 100 - ctr`).  On a fresh draw it records the
coordinates in the consumed list and emits them together with the new stream
position; once the budget is exhausted it raises. -/
def generateCoordinatesLoop (draws : ℕ → LaneCoordinates) :
    ℕ → ℕ → List LaneCoordinates → Except String (LaneCoordinates × ℕ × List LaneCoordinates)
  | 0, _, _ => .error "Unable to find unused flowcell coordinates after 100 attempts."
  | fuel + 1, pos, consumed =>
    let coordinates := draws pos
    if coordinates ∈ consumed then
      generateCoordinatesLoop draws fuel (pos + 1) consumed
    else
      .ok (coordinates, pos + 1, consumed ++ [coordinates])

/-- One `next()` on the coordinate generator: the counter starts (or restarts,
after any successful emission) at 0, so the loop budget is the full 100. -/
def nextCoordinate (draws : ℕ → LaneCoordinates) (pos : ℕ) (consumed : List LaneCoordinates) :
    Except String (LaneCoordinates × ℕ × List LaneCoordinates) :=
  generateCoordinatesLoop draws 100 pos consumed

/-- `n` successive `next()` calls on the coordinate generator of one lane,
returning the list of yielded coordinates, the final stream position and the
final consumed list. -/
def emitCoordinates (draws : ℕ → LaneCoordinates) :
    ℕ → ℕ → List LaneCoordinates → Except String (List LaneCoordinates × ℕ × List LaneCoordinates)
  | 0, pos, consumed => .ok ([], pos, consumed)
  | n + 1, pos, consumed =>
    match nextCoordinate draws pos consumed with
    | .error e => .error e
    | .ok (c, pos', consumed') =>
      match emitCoordinates draws n pos' consumed' with
      | .error e => .error e
      | .ok (cs, pos'', consumed'') => .ok (c :: cs, pos'', consumed'')

/-! ## Flowcell lane partitioning (src/beers/flowcell.py, convert_molecule_pkt_to_cluster_pkt)

The loop keeps `lane_index`, advances it whenever `(counter + 1) %
molecules_per_lane == 0` (and a further lane exists) BEFORE creating the
cluster for the current molecule, and `molecules_per_lane = N //
len(lanes_to_use)`.  `convertLaneIndices N k` records, for each molecule in
input order, the index (into the usable-lane list) of the lane its cluster is
created on. -/

/-- Lane index assigned to each of the `N` retained molecules when there are
`k` usable lanes, following the loop of convert_molecule_pkt_to_cluster_pkt. -/
def convertLaneIndices (N k : ℕ) : List ℕ :=
  let molsPerLane := N / k
  ((List.range N).foldl
    (fun acc counter =>
      let laneIndex :=
        if (counter + 1) % molsPerLane = 0 ∧ acc.1 + 1 < k then acc.1 + 1 else acc.1
      (laneIndex, acc.2 ++ [laneIndex]))
    (0, [])).2

/-! ## Flowcell retention sampling (src/beers/flowcell.py, identify_retained_molecules)

`np.random.choice(molecules, size=n, replace=False)` is external library
code; sampling without replacement is modelled by taking the first `n`
entries of `perm`, a random permutation of the index range (the randomness
source). -/

/-- Flowcell.identify_retained_molecules: draw
`floor(flowcell_retention * len(molecules))` molecules without replacement. -/
def identifyRetainedMolecules (retention : ℚ) (mols : List Molecule) (perm : List ℕ) :
    List Molecule :=
  let numberSamplesToDraw := ⌊retention * (mols.length : ℚ)⌋₊
  (perm.take numberSamplesToDraw).filterMap (fun i => mols[i]?)

/-! ## Flowcell configuration validation (src/beers/flowcell.py, validate)

Both checks always run and each appends its own diagnostic; message text is
modelled by tags in emission order.  The retention check is Python
`not self.flowcell_retention or self.flowcell_retention >= 1`, where the
first disjunct is float falsiness, i.e. retention == 0.0. -/

inductive FlowcellValidationError where
  | lanesNotSubset
  | retentionOutOfRange
deriving DecidableEq, Repr

/-- Flowcell.validate: returns the validity flag and the diagnostics. -/
def flowcellValidate (retention : ℚ) (lanesToUse availableLanes : List ℤ) :
    Bool × List FlowcellValidationError :=
  let afterLanes : Bool × List FlowcellValidationError :=
    if lanesToUse.all (fun l => availableLanes.contains l) then (true, [])
    else (false, [.lanesNotSubset])
  if retention = 0 ∨ 1 ≤ retention then (false, afterLanes.2 ++ [.retentionOutOfRange])
  else afterLanes

/-! ## Phasing matrix (src/beers/sequence/sequence_by_synthesis_step.py,
get_inv_phasing_matrix)

The matrix Q whose (j,t) entry gives the probability that a template
terminates at position j after t cycles.  Rates are Python floats, modelled
as ℚ. -/

/-- Entry (j, t) of the phasing matrix, from the list comprehension in
get_inv_phasing_matrix. -/
def phasingMatrixEntry (skipRate dropRate : ℚ) (j t : ℕ) : ℚ :=
  if j = t then 1 - skipRate - dropRate
  else if t < j then skipRate ^ (j - t) * (1 - skipRate)
  else dropRate ^ (t - j) * (1 - dropRate)

/-- The read_len × read_len phasing matrix, rows indexed by j, columns by t. -/
def phasingMatrix (readLen : ℕ) (skipRate dropRate : ℚ) : List (List ℚ) :=
  (List.range readLen).map (fun j =>
    (List.range readLen).map (fun t => phasingMatrixEntry skipRate dropRate j t))

/-! ## Dephasing smearing (src/beers/sequence/sequence_by_synthesis_step.py,
read_flourescence, lines 199-208)

Arrays are modelled as functions: `padded ch p` is entry (ch, p) of
padded_base_counts, `fracSkipped t s` is frac_skipped[t, s] and
`fracDropped t d` is frac_dropped[t, d].  The three successive Python
assignments to `smeared_base_counts` are the three lets below; the function
returns the value of the variable after the last assignment. -/

/-- The value of smeared_base_counts that enters the fluorescence
computation. -/
def smearedBaseCounts (padded fracSkipped fracDropped : ℕ → ℕ → ℚ)
    (prepadLen readLen maxSkips : ℕ) : ℕ → ℕ → ℚ :=
  let smearedBySkips : ℕ → ℕ → ℚ := fun ch t =>
    Finset.sum (Finset.Icc 1 maxSkips)
      (fun s => padded ch (prepadLen + s + t) * fracSkipped t s)
  let smearedByDrops : ℕ → ℕ → ℚ := fun ch t =>
    Finset.sum (Finset.Icc 1 prepadLen)
      (fun d => padded ch (prepadLen - d + t) * fracDropped t d)
  let fracMaintained : ℕ → ℚ := fun t =>
    1 - (1 - fracSkipped t 0) - (1 - fracDropped t 0)
  fun ch t => padded ch (prepadLen + t) * fracMaintained t

/-- Concrete cluster refuting claim C1 as stated: per-position channel counts
(G,A,T,C) = (5,0,0,0) with molecule_count = 10 (the four counts sum to 5 <
10, which the data model allows: the invariant is sum ≤ molecule_count). -/
noncomputable def c1CexCluster : Cluster where
  clusterId := .int 1
  runId := 1
  moleculeCount := 10
  diameter := 0
  lane := 1
  forwardIs5Prime := .bool true
  molecule := ⟨1, "G", 1, "1M", "+"⟩
  coordinates := ⟨1, 2, 3⟩
  baseCounts := ⟨[5], [0], [0], [0]⟩
  calledSequences := []
  calledIndices := []
  qualityScores := []

/-- Concrete cluster for the witness: counts (G,A,T,C) = (0,1,0,0),
molecule_count = 1. -/
noncomputable def c1WitnessCluster : Cluster where
  clusterId := .int 2
  runId := 1
  moleculeCount := 1
  diameter := 0
  lane := 1
  forwardIs5Prime := .bool true
  molecule := ⟨2, "A", 1, "1M", "+"⟩
  coordinates := ⟨1, 2, 3⟩
  baseCounts := ⟨[0], [1], [0], [0]⟩
  calledSequences := []
  calledIndices := []
  qualityScores := []

/-! ## Cluster.read_in_3_prime_direction (src/beers/cluster.py, lines 99-110)

The method computes the index range and the template range, calls
read_over_range on both, and then executes `quality_scores.reverse()` —
but quality_scores is the str returned by read_over_range, and Python str
has no `reverse` method, so the call raises AttributeError on every input
(lines 107-109 would additionally fail: GeneralUtils in
beers/utilities/general_utils.py has no create_complement_strand, and str
has no getvalue).  The model computes the preceding steps faithfully and
returns the error that line 106 raises. -/

/-- Cluster.read_in_3_prime_direction.  `barcodeData` is the 4-tuple
barcode_data; indices 2 and 3 are used here. -/
noncomputable def Cluster.readIn3PrimeDirection (cl : Cluster) (readLength : ℕ)
    (barcodeData : ℕ × ℕ × ℕ × ℕ) (adapterSequence : String) : Except String Cluster :=
  let rangeEnd1 := cl.molecule.sequence.length - barcodeData.2.2.1
  let rangeStart1 := rangeEnd1 - barcodeData.2.2.2
  let calledIndex := (cl.readOverRange rangeStart1 rangeEnd1).1
  let rangeEnd2 := cl.molecule.sequence.length - adapterSequence.length
  let rangeStart2 := rangeEnd2 - readLength
  let calledBases := (cl.readOverRange rangeStart2 rangeEnd2).1
  let qualityScores := (cl.readOverRange rangeStart2 rangeEnd2).2
  .error "AttributeError: str object has no attribute reverse"

/-! ## Cluster serialization (src/beers/cluster.py, serialize / deserialize)

The record format is text and line-oriented.  `LaneCoordinates.serialize`
and `Molecule.serialize` (absent from src/) are the spec-modelled exact
round-trip single-line encodings above.  Python's str.rstrip is pyRstrip. -/

/-- Cluster.serialize. -/
def Cluster.serialize (cl : Cluster) : String :=
  let line0 := "#" ++ cl.clusterId.fmt ++ "\t" ++ toString cl.runId ++ "\t"
    ++ toString cl.moleculeCount ++ "\t" ++ toString cl.diameter ++ "\t"
    ++ toString cl.lane ++ "\t" ++ cl.forwardIs5Prime.fmt ++ "\n"
  let line12 := "#" ++ cl.coordinates.serialize ++ "\n#" ++ cl.molecule.serialize ++ "\n"
  let calledLines := String.join ((List.range cl.calledSequences.length).map (fun index =>
    "##" ++ cl.calledSequences.getD index "" ++ "\t" ++ cl.calledIndices.getD index ""
      ++ "\t" ++ cl.qualityScores.getD index "" ++ "\n"))
  let countLines := String.join ((List.range cl.molecule.sequence.length).map (fun index =>
    toString (cl.baseCounts.G.getD index 0) ++ "\t" ++ toString (cl.baseCounts.A.getD index 0)
      ++ "\t" ++ toString (cl.baseCounts.T.getD index 0) ++ "\t"
      ++ toString (cl.baseCounts.C.getD index 0) ++ "\t\n"))
  line0 ++ line12 ++ calledLines ++ countLines

/-- Intermediate state of Cluster.deserialize while scanning lines. -/
structure DeserializeState where
  header : Option (String × String × String × String × String × String)
  coordinates : Option LaneCoordinates
  molecule : Option Molecule
  calledSequences : List String
  calledIndices : List String
  qualityScores : List String
  gCounts : List ℤ
  aCounts : List ℤ
  tCounts : List ℤ
  cCounts : List ℤ

/-- One iteration of the line loop of Cluster.deserialize; a parse failure
(Python ValueError on tuple unpacking or int()) yields none.  The line is
the character list of the line; the leading-'#' tests mirror the
startswith("##") / startswith("#") cascade. -/
def deserializeLine (st : DeserializeState) (lineNumber : ℕ) (line : List Char) :
    Option DeserializeState :=
  match line with
  | '#' :: '#' :: rest =>
    match splitOnChar '\t' (rstripChars rest) with
    | [cs, ci, qs] => some { st with
        calledSequences := st.calledSequences ++ [String.mk cs],
        calledIndices := st.calledIndices ++ [String.mk ci],
        qualityScores := st.qualityScores ++ [String.mk qs] }
    | _ => none
  | '#' :: rest =>
    if lineNumber = 0 then
      match splitOnChar '\t' (rstripChars rest) with
      | [cid, rid, mc, dia, lane, fwd] =>
        some { st with header := some (String.mk cid, String.mk rid, String.mk mc,
                 String.mk dia, String.mk lane, String.mk fwd) }
      | _ => none
    else if lineNumber = 1 then
      match LaneCoordinates.deserialize (String.mk (rstripChars rest)) with
      | some co => some { st with coordinates := some co }
      | none => none
    else if lineNumber = 2 then
      match Molecule.deserialize (String.mk (rstripChars rest)) with
      | some mo => some { st with molecule := some mo }
      | none => none
    else some st
  | _ =>
    match splitOnChar '\t' (rstripChars line) with
    | [g1, a1, t1, c1] =>
      match parseInt? g1, parseInt? a1, parseInt? t1, parseInt? c1 with
      | some gv, some av, some tv, some cv => some { st with
          gCounts := st.gCounts ++ [gv],
          aCounts := st.aCounts ++ [av],
          tCounts := st.tCounts ++ [tv],
          cCounts := st.cCounts ++ [cv] }
      | _, _, _, _ => none
    | _ => none

/-- Cluster.deserialize: cluster_id and forward_is_5_prime are passed to the
constructor as the RAW STRINGS from the record (the other numeric fields go
through int()). -/
def Cluster.deserialize (data : String) : Option Cluster :=
  let lines := splitOnChar '\n' (rstripChars data.data)
  let init : DeserializeState := ⟨none, none, none, [], [], [], [], [], [], []⟩
  match lines.enum.foldl
      (fun acc (p : ℕ × List Char) => acc.bind (fun st => deserializeLine st p.1 p.2))
      (some init) with
  | none => none
  | some st =>
    match st.header, st.coordinates, st.molecule with
    | some (cid, rid, mc, dia, lane, fwd), some co, some mo =>
      match parseInt? rid.data, parseInt? mc.data, parseInt? dia.data, parseInt? lane.data with
      | some ridv, some mcv, some diav, some lanev =>
        some { clusterId := .str cid, runId := ridv, moleculeCount := mcv,
               diameter := diav, lane := lanev, forwardIs5Prime := .str fwd,
               molecule := mo, coordinates := co,
               baseCounts := ⟨st.gCounts, st.aCounts, st.tCounts, st.cCounts⟩,
               calledSequences := st.calledSequences,
               calledIndices := st.calledIndices,
               qualityScores := st.qualityScores }
      | _, _, _, _ => none
    | _, _, _ => none

/-- A fully-populated cluster for the round-trip check. -/
def c6Cluster : Cluster where
  clusterId := .int 7
  runId := 3
  moleculeCount := 10
  diameter := 0
  lane := 2
  forwardIs5Prime := .bool true
  molecule := ⟨5, "ACG", 4, "3M", "+"⟩
  coordinates := ⟨11, 22, 33⟩
  baseCounts := ⟨[0, 1, 2], [10, 0, 0], [0, 9, 0], [0, 0, 8]⟩
  calledSequences := ["ACG"]
  calledIndices := ["AC"]
  qualityScores := ["JJJ"]

/-! ## Theorems -/

theorem generateCoordinatesLoop_ok {draws fuel pos consumed c pos' consumed'}
    (h : generateCoordinatesLoop draws fuel pos consumed = .ok (c, pos', consumed')) :
    c ∉ consumed ∧ consumed' = consumed ++ [c] := by
  induction fuel generalizing pos with
  | zero => simp [generateCoordinatesLoop] at h
  | succ fuel ih =>
    rw [generateCoordinatesLoop] at h
    by_cases hmem : draws pos ∈ consumed
    · simp only [hmem, if_pos] at h
      exact ih h
    · simp only [hmem, if_neg, not_false_iff, Except.ok.injEq] at h
      obtain ⟨rfl, _, rfl⟩ := h
      exact ⟨hmem, rfl⟩

theorem generateCoordinatesLoop_error_iff {draws fuel pos consumed} :
    generateCoordinatesLoop draws fuel pos consumed =
        .error "Unable to find unused flowcell coordinates after 100 attempts."
      ↔ ∀ i < fuel, draws (pos + i) ∈ consumed := by
  induction fuel generalizing pos with
  | zero => simp [generateCoordinatesLoop]
  | succ fuel ih =>
    rw [generateCoordinatesLoop]
    by_cases hmem : draws pos ∈ consumed
    · simp only [hmem, if_pos, ih]
      constructor
      · intro h i hi
        cases i with
        | zero => simpa using hmem
        | succ i =>
          have hidx : pos + (i + 1) = pos + 1 + i := by omega
          rw [hidx]
          exact h i (by omega)
      · intro h i hi
        have hidx : pos + 1 + i = pos + (i + 1) := by omega
        rw [hidx]
        exact h (i + 1) (by omega)
    · simp only [hmem, if_neg, not_false_iff]
      constructor
      · intro h; cases h
      · intro h
        exact absurd (by simpa using h 0 (by omega)) hmem

theorem emitCoordinates_ok {draws n pos consumed cs pos' consumed'}
    (h : emitCoordinates draws n pos consumed = .ok (cs, pos', consumed')) :
    cs.Nodup ∧ (∀ c ∈ cs, c ∉ consumed) ∧ consumed' = consumed ++ cs := by
  induction n generalizing pos consumed cs with
  | zero =>
    simp only [emitCoordinates, Except.ok.injEq] at h
    obtain ⟨rfl, _, rfl⟩ := h
    simp
  | succ n ih =>
    rw [emitCoordinates] at h
    cases h1 : nextCoordinate draws pos consumed with
    | error e => rw [h1] at h; exact absurd h (by simp)
    | ok v =>
      obtain ⟨c, posm, consumedm⟩ := v
      rw [h1] at h
      dsimp only at h
      cases h2 : emitCoordinates draws n posm consumedm with
      | error e => rw [h2] at h; exact absurd h (by simp)
      | ok w =>
        obtain ⟨cs', pos'', consumed''⟩ := w
        rw [h2] at h
        simp only [Except.ok.injEq] at h
        obtain ⟨rfl, rfl, rfl⟩ := h
        obtain ⟨hfresh, hconsm⟩ := generateCoordinatesLoop_ok h1
        obtain ⟨hnd, hdisj, hcons⟩ := ih h2
        subst hconsm
        refine ⟨?_, ?_, by simp [hcons]⟩
        · refine List.nodup_cons.mpr ⟨fun hmem => ?_, hnd⟩
          exact (hdisj c hmem) (by simp)
        · intro d hd
          rcases List.mem_cons.mp hd with rfl | hd'
          · exact hfresh
          · intro hmem
            exact (hdisj d hd') (by simp [hmem])

/-- Claim C2: every coordinate triple yielded by a lane's coordinate generator
is distinct from every triple previously yielded for that lane (and from all
coordinates already consumed on the lane), so no two clusters of the same lane
share identical (tile, x, y). -/
theorem flowcell_coordinates_unique (draws : ℕ → LaneCoordinates) (n pos : ℕ)
    (consumed cs consumed' : List LaneCoordinates) (pos' : ℕ)
    (h : emitCoordinates draws n pos consumed = .ok (cs, pos', consumed')) :
    cs.Nodup ∧ ∀ c ∈ cs, c ∉ consumed :=
  ⟨(emitCoordinates_ok h).1, (emitCoordinates_ok h).2.1⟩

theorem flowcell_coordinates_unique_witness :
    emitCoordinates (fun i => (⟨i, i, i⟩ : LaneCoordinates)) 3 0 [⟨9, 9, 9⟩] =
        .ok ([⟨0, 0, 0⟩, ⟨1, 1, 1⟩, ⟨2, 2, 2⟩], 3, [⟨9, 9, 9⟩, ⟨0, 0, 0⟩, ⟨1, 1, 1⟩, ⟨2, 2, 2⟩])
      ∧ ([(⟨0, 0, 0⟩ : LaneCoordinates), ⟨1, 1, 1⟩, ⟨2, 2, 2⟩].Nodup
         ∧ ∀ c ∈ [(⟨0, 0, 0⟩ : LaneCoordinates), ⟨1, 1, 1⟩, ⟨2, 2, 2⟩], c ∉ [(⟨9, 9, 9⟩ : LaneCoordinates)]) :=
  ⟨by rfl,
   flowcell_coordinates_unique (fun i => (⟨i, i, i⟩ : LaneCoordinates)) 3 0
     [⟨9, 9, 9⟩] [⟨0, 0, 0⟩, ⟨1, 1, 1⟩, ⟨2, 2, 2⟩]
     [⟨9, 9, 9⟩, ⟨0, 0, 0⟩, ⟨1, 1, 1⟩, ⟨2, 2, 2⟩] 3 (by rfl)⟩

/-- Claim C3: one `next()` on the coordinate generator raises the fatal
exception exactly when 100 consecutive draws in a row (the counter restarts
at every successful emission, hence the fixed budget of 100 per emission) all
hit already-consumed coordinates; and an emission is never a duplicate of a
consumed coordinate. -/
theorem flowcell_coordinate_exhaustion (draws : ℕ → LaneCoordinates) (pos : ℕ)
    (consumed : List LaneCoordinates) :
    (nextCoordinate draws pos consumed =
        .error "Unable to find unused flowcell coordinates after 100 attempts."
      ↔ ∀ i < 100, draws (pos + i) ∈ consumed)
    ∧ ∀ c pos' consumed',
        nextCoordinate draws pos consumed = .ok (c, pos', consumed') → c ∉ consumed := by
  constructor
  · exact generateCoordinatesLoop_error_iff
  · intro c pos' consumed' h
    exact (generateCoordinatesLoop_ok h).1

theorem flowcell_coordinate_exhaustion_witness :
    (nextCoordinate (fun _ => (⟨1, 1, 1⟩ : LaneCoordinates)) 0 [⟨1, 1, 1⟩] =
        .error "Unable to find unused flowcell coordinates after 100 attempts.")
    ∧ (⟨2, 2, 2⟩ : LaneCoordinates) ∉ [(⟨1, 1, 1⟩ : LaneCoordinates)] :=
  ⟨(flowcell_coordinate_exhaustion (fun _ => ⟨1, 1, 1⟩) 0 [⟨1, 1, 1⟩]).1.mpr
     (fun i _ => by simp),
   (flowcell_coordinate_exhaustion (fun _ => ⟨2, 2, 2⟩) 0 [⟨1, 1, 1⟩]).2
     ⟨2, 2, 2⟩ 1 [⟨1, 1, 1⟩, ⟨2, 2, 2⟩] (by rfl)⟩

theorem convertLaneIndices_loop (m k : ℕ) :
    ∀ N : ℕ,
      (List.range N).foldl
        (fun acc counter =>
          let laneIndex :=
            if (counter + 1) % m = 0 ∧ acc.1 + 1 < k then acc.1 + 1 else acc.1
          (laneIndex, acc.2 ++ [laneIndex]))
        (0, [])
      = (min (N / m) (k - 1), (List.range N).map (fun c => min ((c + 1) / m) (k - 1))) := by
  intro N
  induction N with
  | zero => simp
  | succ N ih =>
    rw [List.range_succ, List.foldl_append, ih, List.map_append]
    have hdiv : (N + 1) / m = N / m + if m ∣ N + 1 then 1 else 0 := Nat.succ_div N m
    have hscalar :
        (if (N + 1) % m = 0 ∧ min (N / m) (k - 1) + 1 < k then min (N / m) (k - 1) + 1
         else min (N / m) (k - 1)) = min ((N + 1) / m) (k - 1) := by
      by_cases hdvd : m ∣ N + 1
      · have hmod : (N + 1) % m = 0 := Nat.mod_eq_zero_of_dvd hdvd
        rw [if_pos hdvd] at hdiv
        rw [hdiv]
        generalize N / m = q
        simp only [hmod, true_and, Nat.min_def]
        split_ifs <;> omega
      · have hmod : (N + 1) % m ≠ 0 := fun hc => hdvd (Nat.dvd_of_mod_eq_zero hc)
        rw [if_neg hdvd] at hdiv
        rw [hdiv]
        simp [hmod]
    simp only [List.foldl_cons, List.foldl_nil, List.map_cons, List.map_nil]
    rw [hscalar]

theorem count_map_range (f : ℕ → ℕ) (i N : ℕ) :
    ((List.range N).map f).count i = ((Finset.range N).filter (fun c => f c = i)).card := by
  induction N with
  | zero => simp
  | succ N ih =>
    rw [List.range_succ, List.map_append, List.count_append, ih, Finset.range_succ,
        Finset.filter_insert]
    by_cases h : f N = i
    · rw [if_pos h, Finset.card_insert_of_not_mem (by simp)]
      simp [h]
    · rw [if_neg h]
      simp [List.count_cons, h]

/-- Claim C4 (amended): with `k` usable lanes and `N ≥ k` retained molecules
(`m = N / k` molecules per lane), the molecule at input position `c` is
assigned the lane at index `min ((c+1)/m) (k-1)`; hence lanes are contiguous
chunks in input order, but (for `k ≥ 2`) the FIRST lane receives `m - 1`
molecules, intermediate lanes receive `m`, and the last lane receives
`N - (k-1)*m + 1`; a single lane receives everything. -/
theorem convert_molecule_pkt_lane_partition (N k : ℕ) (hk : 1 ≤ k) (hkN : k ≤ N) :
    convertLaneIndices N k = (List.range N).map (fun c => min ((c + 1) / (N / k)) (k - 1))
    ∧ (2 ≤ k → (convertLaneIndices N k).count 0 = N / k - 1)
    ∧ (∀ i, 1 ≤ i → i + 1 < k → (convertLaneIndices N k).count i = N / k)
    ∧ (2 ≤ k → (convertLaneIndices N k).count (k - 1) = N - (k - 1) * (N / k) + 1)
    ∧ (k = 1 → convertLaneIndices N k = List.replicate N 0) := by
  have hmap : convertLaneIndices N k
      = (List.range N).map (fun c => min ((c + 1) / (N / k)) (k - 1)) := by
    unfold convertLaneIndices
    dsimp only
    rw [convertLaneIndices_loop (N / k) k N]
  set m := N / k with hmdef
  have hk0 : 0 < k := hk
  have hm : 1 ≤ m := (Nat.one_le_div_iff hk0).mpr hkN
  have hm0 : 0 < m := hm
  have hmN : m ≤ N := Nat.div_le_self N k
  have hkm : k * m ≤ N := by
    rw [hmdef, mul_comm]
    exact Nat.div_mul_le_self N k
  refine ⟨hmap, ?_, ?_, ?_, ?_⟩
  · intro hk2
    rw [hmap, count_map_range]
    have hset : ((Finset.range N).filter (fun c => min ((c + 1) / m) (k - 1) = 0))
        = Finset.range (m - 1) := by
      ext c
      simp only [Finset.mem_filter, Finset.mem_range]
      constructor
      · rintro ⟨hcN, hmin⟩
        rcases Nat.min_eq_zero_iff.mp hmin with h0 | h0
        · have : c + 1 < m := (Nat.div_eq_zero_iff hm0).mp h0
          omega
        · omega
      · intro hc
        have hdiv0 : (c + 1) / m = 0 := Nat.div_eq_of_lt (by omega)
        exact ⟨by omega, by simp [hdiv0]⟩
    rw [hset, Finset.card_range]
  · intro i hi1 hik
    rw [hmap, count_map_range]
    have him : 0 < i * m := Nat.mul_pos (by omega) hm0
    have hsucc : (i + 1) * m = i * m + m := Nat.succ_mul i m
    have hupper : (i + 1) * m ≤ N :=
      le_trans (Nat.mul_le_mul_right m (by omega)) hkm
    have hset : ((Finset.range N).filter (fun c => min ((c + 1) / m) (k - 1) = i))
        = Finset.Ico (i * m - 1) ((i + 1) * m - 1) := by
      ext c
      simp only [Finset.mem_filter, Finset.mem_range, Finset.mem_Ico]
      constructor
      · rintro ⟨hcN, hmin⟩
        have hq : (c + 1) / m = i := by
          rcases Nat.le_total ((c + 1) / m) (k - 1) with hle | hle
          · rwa [min_eq_left hle] at hmin
          · rw [min_eq_right hle] at hmin; omega
        have hlo : i * m ≤ c + 1 :=
          (Nat.le_div_iff_mul_le hm0).mp (le_of_eq hq.symm)
        have hhi : c + 1 < (i + 1) * m := by
          by_contra hcon
          push_neg at hcon
          have := (Nat.le_div_iff_mul_le hm0).mpr hcon
          omega
        omega
      · rintro ⟨hlo, hhi⟩
        have hq : (c + 1) / m = i :=
          Nat.div_eq_of_lt_le (by omega) (by rw [Nat.succ_mul]; omega)
        refine ⟨by omega, ?_⟩
        rw [hq]
        exact min_eq_left (by omega)
    rw [hset, Nat.card_Ico]
    omega
  · intro hk2
    rw [hmap, count_map_range]
    have hx : 0 < (k - 1) * m := Nat.mul_pos (by omega) hm0
    have hxN : (k - 1) * m ≤ N := le_trans (Nat.mul_le_mul_right m (by omega)) hkm
    have hset : ((Finset.range N).filter (fun c => min ((c + 1) / m) (k - 1) = k - 1))
        = Finset.Ico ((k - 1) * m - 1) N := by
      ext c
      simp only [Finset.mem_filter, Finset.mem_range, Finset.mem_Ico]
      constructor
      · rintro ⟨hcN, hmin⟩
        have hge : k - 1 ≤ (c + 1) / m := by
          rcases Nat.le_total ((c + 1) / m) (k - 1) with hle | hle
          · rw [min_eq_left hle] at hmin; omega
          · exact hle
        have := (Nat.le_div_iff_mul_le hm0).mp hge
        omega
      · rintro ⟨hlo, hcN⟩
        have hle : (k - 1) * m ≤ c + 1 := by omega
        have hge : k - 1 ≤ (c + 1) / m := (Nat.le_div_iff_mul_le hm0).mpr hle
        exact ⟨hcN, min_eq_right hge⟩
    rw [hset, Nat.card_Ico]
    omega
  · rintro rfl
    rw [hmap]
    have hfun : (fun c => min ((c + 1) / m) (1 - 1)) = fun _ : ℕ => 0 := by
      funext c
      simp
    rw [hfun, List.map_const', List.length_range]

/-- Claim C4, as stated, fails: with 4 retained molecules on 2 lanes the claim
demands that the first (non-last) lane receive 4 / 2 = 2 molecules, but the
loop advances to the second lane before placing the second molecule, so the
first lane receives only 1. -/
theorem convert_molecule_pkt_lane_partition_cex :
    convertLaneIndices 4 2 = [0, 1, 1, 1]
    ∧ (convertLaneIndices 4 2).count 0 = 1
    ∧ (1 : ℕ) ≠ 4 / 2 := by decide

theorem convert_molecule_pkt_lane_partition_witness :
    (convertLaneIndices 7 3).count 0 = 7 / 3 - 1
    ∧ (convertLaneIndices 7 3).count 1 = 7 / 3
    ∧ (convertLaneIndices 7 3).count (3 - 1) = 7 - (3 - 1) * (7 / 3) + 1
    ∧ convertLaneIndices 7 3
        = (List.range 7).map (fun c => min ((c + 1) / (7 / 3)) (3 - 1)) := by
  have h := convert_molecule_pkt_lane_partition 7 3 (by omega) (by omega)
  exact ⟨h.2.1 (by omega), h.2.2.1 1 (by omega) (by omega), h.2.2.2.1 (by omega), h.1⟩

theorem filterMap_get_length {α : Type} (mols : List α) (l : List ℕ)
    (h : ∀ i ∈ l, i < mols.length) :
    (l.filterMap (fun i => mols[i]?)).length = l.length := by
  induction l with
  | nil => simp
  | cons i rest ih =>
    have hi : i < mols.length := h i (by simp)
    rw [List.filterMap_cons, List.getElem?_eq_getElem hi]
    simp only [List.length_cons]
    rw [ih (fun j hj => h j (by simp [hj]))]

theorem filterMap_get_mem {α : Type} (mols : List α) (l : List ℕ) (x : α)
    (hx : x ∈ l.filterMap (fun i => mols[i]?)) : x ∈ mols := by
  rcases List.mem_filterMap.mp hx with ⟨i, _, hsome⟩
  exact List.getElem?_mem hsome

theorem filterMap_get_nodup {α : Type} (mols : List α) (l : List ℕ)
    (h : ∀ i ∈ l, i < mols.length) (hl : l.Nodup) (hnd : mols.Nodup) :
    (l.filterMap (fun i => mols[i]?)).Nodup := by
  induction l with
  | nil => simp
  | cons i rest ih =>
    have hi : i < mols.length := h i (by simp)
    rw [List.filterMap_cons, List.getElem?_eq_getElem hi]
    rcases List.nodup_cons.mp hl with ⟨hnotmem, hrest⟩
    refine List.nodup_cons.mpr ⟨?_, ih (fun j hj => h j (by simp [hj])) hrest⟩
    intro hmem
    rcases List.mem_filterMap.mp hmem with ⟨j, hj, hsome⟩
    have hjlen : j < mols.length := h j (by simp [hj])
    rw [List.getElem?_eq_getElem hjlen] at hsome
    have hij : mols[i] = mols[j] := by
      simpa using hsome.symm
    have : i = j := by
      have hinj := List.nodup_iff_injective_get.mp hnd
      have hget : mols.get ⟨i, hi⟩ = mols.get ⟨j, hjlen⟩ := by
        simpa [List.get_eq_getElem] using hij
      have := hinj hget
      simpa using congrArg Fin.val this
    exact hnotmem (this ▸ hj)

/-- Claim C5: for a retention fraction in (0,1), identify_retained_molecules
returns exactly `floor(retention * N)` molecules, each drawn from the input
without replacement: the result is a duplicate-free selection from the
input list. -/
theorem identify_retained_molecules_spec (r : ℚ) (mols : List Molecule) (perm : List ℕ)
    (hr0 : 0 < r) (hr1 : r < 1)
    (hperm : perm.Perm (List.range mols.length))
    (hnd : mols.Nodup) :
    (identifyRetainedMolecules r mols perm).length = ⌊r * (mols.length : ℚ)⌋₊
    ∧ (∀ x ∈ identifyRetainedMolecules r mols perm, x ∈ mols)
    ∧ (identifyRetainedMolecules r mols perm).Nodup := by
  have hlen : perm.length = mols.length := by
    rw [hperm.length_eq, List.length_range]
  have hrange : ∀ i ∈ perm, i < mols.length := by
    intro i hi
    have := hperm.mem_iff.mp hi
    exact List.mem_range.mp this
  have hndperm : perm.Nodup := hperm.nodup_iff.mpr (List.nodup_range mols.length)
  have hfloor : ⌊r * (mols.length : ℚ)⌋₊ ≤ mols.length := by
    calc ⌊r * (mols.length : ℚ)⌋₊ ≤ ⌊(mols.length : ℚ)⌋₊ := by
          apply Nat.floor_le_floor
          calc r * (mols.length : ℚ) ≤ 1 * (mols.length : ℚ) := by
                apply mul_le_mul_of_nonneg_right hr1.le
                positivity
            _ = (mols.length : ℚ) := one_mul _
      _ = mols.length := Nat.floor_natCast _
  have htake : ∀ i ∈ perm.take ⌊r * (mols.length : ℚ)⌋₊, i < mols.length :=
    fun i hi => hrange i (List.mem_of_mem_take hi)
  refine ⟨?_, ?_, ?_⟩
  · unfold identifyRetainedMolecules
    rw [filterMap_get_length mols _ htake, List.length_take, hlen]
    omega
  · intro x hx
    exact filterMap_get_mem mols _ x hx
  · exact filterMap_get_nodup mols _ htake
      ((List.take_sublist _ _).nodup hndperm) hnd

theorem identify_retained_molecules_witness :
    (0 : ℚ) < 1 / 2 ∧ (1 / 2 : ℚ) < 1
    ∧ (identifyRetainedMolecules (1 / 2)
        [⟨1, "AAAA", 0, "4M", "+"⟩, ⟨2, "CCCC", 0, "4M", "+"⟩,
         ⟨3, "GGGG", 0, "4M", "+"⟩, ⟨4, "TTTT", 0, "4M", "+"⟩] [2, 0, 3, 1]).length
        = ⌊(1 / 2 : ℚ) * ((4 : ℕ) : ℚ)⌋₊
    ∧ (identifyRetainedMolecules (1 / 2)
        [⟨1, "AAAA", 0, "4M", "+"⟩, ⟨2, "CCCC", 0, "4M", "+"⟩,
         ⟨3, "GGGG", 0, "4M", "+"⟩, ⟨4, "TTTT", 0, "4M", "+"⟩] [2, 0, 3, 1]).Nodup := by
  have h := identify_retained_molecules_spec (1 / 2)
    [⟨1, "AAAA", 0, "4M", "+"⟩, ⟨2, "CCCC", 0, "4M", "+"⟩,
     ⟨3, "GGGG", 0, "4M", "+"⟩, ⟨4, "TTTT", 0, "4M", "+"⟩] [2, 0, 3, 1]
    (by norm_num) (by norm_num) (by decide) (by decide)
  exact ⟨by norm_num, by norm_num, by simpa using h.1, h.2.2⟩

/-- Claim C7 (amended): validate reports invalid exactly when the requested
lanes are not a subset of the available lanes, or the retention fraction is 0
or at least 1 — a NEGATIVE retention fraction passes the check although it is
outside (0,1).  Both diagnostics are collected independently. -/
theorem flowcell_validate_spec (r : ℚ) (lanes avail : List ℤ) :
    ((flowcellValidate r lanes avail).1 = true
      ↔ ((∀ l ∈ lanes, l ∈ avail) ∧ r ≠ 0 ∧ r < 1))
    ∧ (FlowcellValidationError.lanesNotSubset ∈ (flowcellValidate r lanes avail).2
      ↔ ¬(∀ l ∈ lanes, l ∈ avail))
    ∧ (FlowcellValidationError.retentionOutOfRange ∈ (flowcellValidate r lanes avail).2
      ↔ (r = 0 ∨ 1 ≤ r)) := by
  unfold flowcellValidate
  by_cases hsub : (lanes.all (fun l => avail.contains l)) = true
  · have hsub' : ∀ l ∈ lanes, l ∈ avail := fun l hl => by
      simpa using List.all_eq_true.mp hsub l hl
    rw [if_pos hsub]
    by_cases hr : r = 0 ∨ 1 ≤ r
    · rw [if_pos hr]
      refine ⟨iff_of_false (by simp) ?_,
              iff_of_false (by simp) (not_not_intro hsub'),
              iff_of_true (by simp) hr⟩
      rintro ⟨-, hne, hlt⟩
      rcases hr with h | h
      · exact hne h
      · linarith
    · rw [if_neg hr]
      have hparts : r ≠ 0 ∧ r < 1 := by
        constructor
        · intro h
          exact hr (Or.inl h)
        · by_contra hc
          exact hr (Or.inr (le_of_not_lt hc))
      exact ⟨iff_of_true rfl ⟨hsub', hparts.1, hparts.2⟩,
             iff_of_false (by simp) (not_not_intro hsub'),
             iff_of_false (by simp) hr⟩
  · have hsub' : ¬∀ l ∈ lanes, l ∈ avail := by
      intro hc
      exact hsub (List.all_eq_true.mpr (fun l hl => by simpa using hc l hl))
    rw [if_neg hsub]
    by_cases hr : r = 0 ∨ 1 ≤ r
    · rw [if_pos hr]
      exact ⟨iff_of_false (by simp) (fun hc => hsub' hc.1),
             iff_of_true (by simp) hsub',
             iff_of_true (by simp) hr⟩
    · rw [if_neg hr]
      exact ⟨iff_of_false (by simp) (fun hc => hsub' hc.1),
             iff_of_true (by simp) hsub',
             iff_of_false (by simp) hr⟩

/-- Claim C7, as stated, fails: a negative retention fraction (here -1/2) is
outside (0,1), so the claim requires the configuration to be reported
invalid, yet validate returns valid (Python float falsiness only catches
0.0, and -1/2 < 1). -/
theorem flowcell_validate_cex :
    (flowcellValidate (-1 / 2) [1] [1, 2]).1 = true
    ∧ ¬((0 : ℚ) < -1 / 2 ∧ (-1 / 2 : ℚ) < 1) := by
  constructor
  · unfold flowcellValidate
    rw [if_neg (show ¬((-1 / 2 : ℚ) = 0 ∨ 1 ≤ (-1 / 2 : ℚ)) from by norm_num)]
    rw [if_pos (show (([1] : List ℤ).all (fun l => ([1, 2] : List ℤ).contains l)) = true
      from by decide)]
  · intro h
    have := h.1
    norm_num at this

theorem getD_map_range {α : Type} (d : α) (f : ℕ → α) {n L : ℕ} (h : n < L) :
    ((List.range L).map f).getD n d = f n := by
  rw [List.getD_eq_getElem?_getD, List.getElem?_map, List.getElem?_range h]
  rfl

/-- Claim C8 (amended): entry (j,t) of the phasing matrix is
`1 - skip - drop` on the diagonal, `skip^(j-t) * (1 - skip)` below it
(j > t), and `drop^(t-j) * (1 - drop)` above it (j < t) — with the residual
factors `(1-skip)`, `(1-drop)`, not the bare geometric terms; in particular
with both rates 0 the matrix is the identity. -/
theorem get_inv_phasing_matrix_entries (readLen : ℕ) (skipRate dropRate : ℚ)
    (j t : ℕ) (hj : j < readLen) (ht : t < readLen) :
    ((phasingMatrix readLen skipRate dropRate).getD j []).getD t 0
      = (if j = t then 1 - skipRate - dropRate
         else if t < j then skipRate ^ (j - t) * (1 - skipRate)
         else dropRate ^ (t - j) * (1 - dropRate))
    ∧ (skipRate = 0 → dropRate = 0 →
        ((phasingMatrix readLen skipRate dropRate).getD j []).getD t 0
          = if j = t then 1 else 0) := by
  have hentry : ((phasingMatrix readLen skipRate dropRate).getD j []).getD t 0
      = phasingMatrixEntry skipRate dropRate j t := by
    unfold phasingMatrix
    rw [getD_map_range [] _ hj, getD_map_range 0 _ ht]
  refine ⟨hentry, ?_⟩
  rintro rfl rfl
  rw [hentry]
  unfold phasingMatrixEntry
  by_cases hjt : j = t
  · rw [if_pos hjt, if_pos hjt]
    norm_num
  · rw [if_neg hjt, if_neg hjt]
    by_cases hlt : t < j
    · rw [if_pos hlt, zero_pow (by omega)]
      ring
    · rw [if_neg hlt, zero_pow (by omega)]
      ring

/-- Claim C8, as stated, fails: the claim gives the below-diagonal entry as
the bare geometric term `skip^(j-t)`, but the code multiplies in the residual
factor `(1 - skip)`: at read length 2, skip = 1/2, drop = 0, entry (1,0) is
1/4, not (1/2)^1 = 1/2. -/
theorem get_inv_phasing_matrix_cex :
    ((phasingMatrix 2 (1 / 2) 0).getD 1 []).getD 0 0 = 1 / 4
    ∧ ((1 : ℚ) / 4) ≠ ((1 : ℚ) / 2) ^ ((1 : ℕ) - 0) := by
  constructor
  · norm_num [phasingMatrix, phasingMatrixEntry, List.range_succ]
  · norm_num

theorem get_inv_phasing_matrix_witness :
    (1 : ℕ) < 3 ∧ (0 : ℕ) < 3
    ∧ ((phasingMatrix 3 0 0).getD 1 []).getD 0 0 = (if (1 : ℕ) = 0 then (1 : ℚ) else 0)
    ∧ ((phasingMatrix 3 0 0).getD 1 []).getD 1 0 = (if (1 : ℕ) = 1 then (1 : ℚ) else 0) :=
  ⟨by omega, by omega,
   (get_inv_phasing_matrix_entries 3 0 0 1 0 (by omega) (by omega)).2 rfl rfl,
   (get_inv_phasing_matrix_entries 3 0 0 1 1 (by omega) (by omega)).2 rfl rfl⟩

/-- Claim C10: the smeared base counts used for fluorescence equal the
unshifted padded counts times `frac_skipped[:,0] + frac_dropped[:,0] - 1`
alone; the skip-shifted and drop-shifted sums are overwritten and the result
does not depend on any other entries of frac_skipped / frac_dropped. -/
theorem read_flourescence_smearing_overwrites
    (padded fracSkipped fracDropped : ℕ → ℕ → ℚ)
    (prepadLen readLen maxSkips ch t : ℕ) :
    smearedBaseCounts padded fracSkipped fracDropped prepadLen readLen maxSkips ch t
      = padded ch (prepadLen + t) * (fracSkipped t 0 + fracDropped t 0 - 1)
    ∧ (∀ fs2 fd2 : ℕ → ℕ → ℚ, fs2 t 0 = fracSkipped t 0 → fd2 t 0 = fracDropped t 0 →
        smearedBaseCounts padded fs2 fd2 prepadLen readLen maxSkips ch t
          = smearedBaseCounts padded fracSkipped fracDropped prepadLen readLen maxSkips ch t) := by
  constructor
  · unfold smearedBaseCounts
    ring
  · intro fs2 fd2 h1 h2
    unfold smearedBaseCounts
    simp only [h1, h2]

theorem read_flourescence_smearing_overwrites_witness :
    smearedBaseCounts (fun ch p => (ch : ℚ) + p) (fun _ s => if s = 0 then 1 / 3 else 5)
        (fun _ d => if d = 0 then 1 / 4 else 7) 10 25 10 2 0
      = ((2 : ℚ) + 10) * ((1 / 3 : ℚ) + 1 / 4 - 1)
    ∧ smearedBaseCounts (fun ch p => (ch : ℚ) + p) (fun _ s => if s = 0 then 1 / 3 else 9)
        (fun _ d => if d = 0 then 1 / 4 else 11) 10 25 10 2 0
      = smearedBaseCounts (fun ch p => (ch : ℚ) + p) (fun _ s => if s = 0 then 1 / 3 else 5)
          (fun _ d => if d = 0 then 1 / 4 else 7) 10 25 10 2 0 := by
  have h := read_flourescence_smearing_overwrites (fun ch p => (ch : ℚ) + p)
    (fun _ s => if s = 0 then 1 / 3 else 5) (fun _ d => if d = 0 then 1 / 4 else 7) 10 25 10 2 0
  refine ⟨?_, h.2 _ _ rfl rfl⟩
  have h1 := h.1
  simpa using h1

/-! ## Cluster.read_over_range: consensus call characterization (claim C1) -/

theorem pyMaxPair_keep (b1 b2 : Char) (v1 v2 : ℤ) (h : v2 ≤ v1) :
    pyMaxPair (b1, v1) (b2, v2) = (b1, v1) := by
  unfold pyMaxPair
  rw [if_neg (not_lt.mpr h)]

theorem pyMaxPair_new (b1 b2 : Char) (v1 v2 : ℤ) (h : v1 < v2) :
    pyMaxPair (b1, v1) (b2, v2) = (b2, v2) := by
  unfold pyMaxPair
  rw [if_pos h]

theorem pyMaxPair_snd (p q : Char × ℤ) : (pyMaxPair p q).2 = max p.2 q.2 := by
  unfold pyMaxPair
  split_ifs with h <;> omega

theorem pyMaxBaseCounts_snd (g a t c : ℤ) :
    (pyMaxBaseCounts g a t c).2 = max (max (max g a) t) c := by
  unfold pyMaxBaseCounts
  simp only [List.foldl_cons, List.foldl_nil]
  rw [pyMaxPair_snd, pyMaxPair_snd, pyMaxPair_snd]

theorem pyMaxBaseCounts_G {g a t c : ℤ} (ha : a < g) (ht : t < g) (hc : c < g) :
    pyMaxBaseCounts g a t c = ('G', g) := by
  unfold pyMaxBaseCounts
  simp only [List.foldl_cons, List.foldl_nil]
  rw [pyMaxPair_keep 'G' 'A' g a (le_of_lt ha), pyMaxPair_keep 'G' 'T' g t (le_of_lt ht),
      pyMaxPair_keep 'G' 'C' g c (le_of_lt hc)]

theorem pyMaxBaseCounts_A {g a t c : ℤ} (hg : g < a) (ht : t < a) (hc : c < a) :
    pyMaxBaseCounts g a t c = ('A', a) := by
  unfold pyMaxBaseCounts
  simp only [List.foldl_cons, List.foldl_nil]
  rw [pyMaxPair_new 'G' 'A' g a hg, pyMaxPair_keep 'A' 'T' a t (le_of_lt ht),
      pyMaxPair_keep 'A' 'C' a c (le_of_lt hc)]

theorem pyMaxBaseCounts_T {g a t c : ℤ} (hg : g < t) (ha : a < t) (hc : c < t) :
    pyMaxBaseCounts g a t c = ('T', t) := by
  unfold pyMaxBaseCounts
  simp only [List.foldl_cons, List.foldl_nil]
  rcases le_or_lt a g with h1 | h1
  · rw [pyMaxPair_keep 'G' 'A' g a h1, pyMaxPair_new 'G' 'T' g t hg,
        pyMaxPair_keep 'T' 'C' t c (le_of_lt hc)]
  · rw [pyMaxPair_new 'G' 'A' g a h1, pyMaxPair_new 'A' 'T' a t ha,
        pyMaxPair_keep 'T' 'C' t c (le_of_lt hc)]

theorem pyMaxBaseCounts_C {g a t c : ℤ} (hg : g < c) (ha : a < c) (ht : t < c) :
    pyMaxBaseCounts g a t c = ('C', c) := by
  unfold pyMaxBaseCounts
  simp only [List.foldl_cons, List.foldl_nil]
  rcases le_or_lt a g with h1 | h1
  · rcases le_or_lt t g with h2 | h2
    · rw [pyMaxPair_keep 'G' 'A' g a h1, pyMaxPair_keep 'G' 'T' g t h2,
          pyMaxPair_new 'G' 'C' g c hg]
    · rw [pyMaxPair_keep 'G' 'A' g a h1, pyMaxPair_new 'G' 'T' g t h2,
          pyMaxPair_new 'T' 'C' t c ht]
  · rcases le_or_lt t a with h2 | h2
    · rw [pyMaxPair_new 'G' 'A' g a h1, pyMaxPair_keep 'A' 'T' a t h2,
          pyMaxPair_new 'A' 'C' a c ha]
    · rw [pyMaxPair_new 'G' 'A' g a h1, pyMaxPair_new 'A' 'T' a t h2,
          pyMaxPair_new 'T' 'C' t c ht]

theorem quad_filter_len (g a t c M : ℤ) :
    (([('G', g), ('A', a), ('T', t), ('C', c)] : List (Char × ℤ)).filter
        (fun bc => bc.2 = M)).length = [g, a, t, c].count M := by
  by_cases h1 : g = M <;> by_cases h2 : a = M <;> by_cases h3 : t = M <;> by_cases h4 : c = M <;>
    simp [List.filter_cons, List.count_cons, h1, h2, h3, h4]

theorem callPosition_tie (g a t c mc : ℤ)
    (h : 2 ≤ [g, a, t, c].count (max (max (max g a) t) c)) :
    callPosition g a t c mc = ('N', Char.ofNat MIN_ASCII) := by
  unfold callPosition
  dsimp only
  rw [pyMaxBaseCounts_snd, quad_filter_len, if_pos (by omega)]

theorem callPosition_uniqueG (g a t c mc : ℤ) (ha : a < g) (ht : t < g) (hc : c < g) :
    callPosition g a t c mc = ('G', qualityChar (a + t + c) mc) := by
  unfold callPosition
  dsimp only
  rw [pyMaxBaseCounts_G ha ht hc]
  have hlen : (List.filter (fun bc => decide (bc.2 = (('G', g) : Char × ℤ).2))
      ([('G', g), ('A', a), ('T', t), ('C', c)] : List (Char × ℤ))).length = 1 := by
    simp only [List.filter_cons, List.filter_nil, decide_eq_true_eq]
    rw [if_pos trivial, if_neg (show ¬(a = g) by omega), if_neg (show ¬(t = g) by omega),
        if_neg (show ¬(c = g) by omega)]
    rfl
  rw [hlen, if_neg (by omega)]
  have hother : (List.map Prod.snd (List.filter (fun bc => decide (bc.1 ≠ (('G', g) : Char × ℤ).1))
      ([('G', g), ('A', a), ('T', t), ('C', c)] : List (Char × ℤ)))).sum = a + t + c := by
    simp only [List.filter_cons, List.filter_nil, decide_eq_true_eq]
    rw [if_neg (by decide), if_pos (by decide), if_pos (by decide), if_pos (by decide)]
    simp only [List.map_cons, List.map_nil, List.sum_cons, List.sum_nil]
    omega
  rw [hother]

theorem callPosition_uniqueA (g a t c mc : ℤ) (hg : g < a) (ht : t < a) (hc : c < a) :
    callPosition g a t c mc = ('A', qualityChar (g + t + c) mc) := by
  unfold callPosition
  dsimp only
  rw [pyMaxBaseCounts_A hg ht hc]
  have hlen : (List.filter (fun bc => decide (bc.2 = (('A', a) : Char × ℤ).2))
      ([('G', g), ('A', a), ('T', t), ('C', c)] : List (Char × ℤ))).length = 1 := by
    simp only [List.filter_cons, List.filter_nil, decide_eq_true_eq]
    rw [if_neg (show ¬(g = a) by omega), if_pos trivial, if_neg (show ¬(t = a) by omega),
        if_neg (show ¬(c = a) by omega)]
    rfl
  rw [hlen, if_neg (by omega)]
  have hother : (List.map Prod.snd (List.filter (fun bc => decide (bc.1 ≠ (('A', a) : Char × ℤ).1))
      ([('G', g), ('A', a), ('T', t), ('C', c)] : List (Char × ℤ)))).sum = g + t + c := by
    simp only [List.filter_cons, List.filter_nil, decide_eq_true_eq]
    rw [if_pos (by decide), if_neg (by decide), if_pos (by decide), if_pos (by decide)]
    simp only [List.map_cons, List.map_nil, List.sum_cons, List.sum_nil]
    omega
  rw [hother]

theorem callPosition_uniqueT (g a t c mc : ℤ) (hg : g < t) (ha : a < t) (hc : c < t) :
    callPosition g a t c mc = ('T', qualityChar (g + a + c) mc) := by
  unfold callPosition
  dsimp only
  rw [pyMaxBaseCounts_T hg ha hc]
  have hlen : (List.filter (fun bc => decide (bc.2 = (('T', t) : Char × ℤ).2))
      ([('G', g), ('A', a), ('T', t), ('C', c)] : List (Char × ℤ))).length = 1 := by
    simp only [List.filter_cons, List.filter_nil, decide_eq_true_eq]
    rw [if_neg (show ¬(g = t) by omega), if_neg (show ¬(a = t) by omega), if_pos trivial,
        if_neg (show ¬(c = t) by omega)]
    rfl
  rw [hlen, if_neg (by omega)]
  have hother : (List.map Prod.snd (List.filter (fun bc => decide (bc.1 ≠ (('T', t) : Char × ℤ).1))
      ([('G', g), ('A', a), ('T', t), ('C', c)] : List (Char × ℤ)))).sum = g + a + c := by
    simp only [List.filter_cons, List.filter_nil, decide_eq_true_eq]
    rw [if_pos (by decide), if_pos (by decide), if_neg (by decide), if_pos (by decide)]
    simp only [List.map_cons, List.map_nil, List.sum_cons, List.sum_nil]
    omega
  rw [hother]

theorem callPosition_uniqueC (g a t c mc : ℤ) (hg : g < c) (ha : a < c) (ht : t < c) :
    callPosition g a t c mc = ('C', qualityChar (g + a + t) mc) := by
  unfold callPosition
  dsimp only
  rw [pyMaxBaseCounts_C hg ha ht]
  have hlen : (List.filter (fun bc => decide (bc.2 = (('C', c) : Char × ℤ).2))
      ([('G', g), ('A', a), ('T', t), ('C', c)] : List (Char × ℤ))).length = 1 := by
    simp only [List.filter_cons, List.filter_nil, decide_eq_true_eq]
    rw [if_neg (show ¬(g = c) by omega), if_neg (show ¬(a = c) by omega),
        if_neg (show ¬(t = c) by omega), if_pos trivial]
    rfl
  rw [hlen, if_neg (by omega)]
  have hother : (List.map Prod.snd (List.filter (fun bc => decide (bc.1 ≠ (('C', c) : Char × ℤ).1))
      ([('G', g), ('A', a), ('T', t), ('C', c)] : List (Char × ℤ)))).sum = g + a + t := by
    simp only [List.filter_cons, List.filter_nil, decide_eq_true_eq]
    rw [if_pos (by decide), if_pos (by decide), if_pos (by decide), if_neg (by decide)]
    simp only [List.map_cons, List.map_nil, List.sum_cons, List.sum_nil]
    omega
  rw [hother]

theorem qualityValue_pos (other mc : ℤ) (hmc : mc ≠ 0) (hother : other ≠ 0) :
    qualityValue other mc
      = min MAX_QUALITY ⌊(-10 : ℝ) * Real.logb 10 ((other : ℝ) / (mc : ℝ))⌋ := by
  unfold qualityValue
  rw [if_neg]
  intro hzero
  rcases div_eq_zero_iff.mp hzero with h | h
  · exact hother (by exact_mod_cast h)
  · exact hmc (by exact_mod_cast h)

theorem qualityValue_zero (other mc : ℤ) (hother : other = 0) :
    qualityValue other mc = MAX_QUALITY := by
  unfold qualityValue
  rw [if_pos]
  rw [hother]
  simp

theorem string_push_pair_foldl (f1 f2 : ℕ → Char) (l : List ℕ) (s1 s2 : List Char) :
    l.foldl (fun acc pos => (acc.1.push (f1 pos), acc.2.push (f2 pos)))
      (String.mk s1, String.mk s2)
      = (String.mk (s1 ++ l.map f1), String.mk (s2 ++ l.map f2)) := by
  induction l generalizing s1 s2 with
  | nil => simp
  | cons x xs ih =>
    simp only [List.foldl_cons, List.map_cons]
    rw [show (String.mk s1).push (f1 x) = String.mk (s1 ++ [f1 x]) from rfl,
        show (String.mk s2).push (f2 x) = String.mk (s2 ++ [f2 x]) from rfl, ih]
    simp

theorem readOverRange_eq_map (cl : Cluster) (s e : ℕ) :
    cl.readOverRange s e
      = (String.mk ((List.range' s (e - s)).map (fun p => (callAt cl p).1)),
         String.mk ((List.range' s (e - s)).map (fun p => (callAt cl p).2))) := by
  unfold Cluster.readOverRange
  have h := string_push_pair_foldl (fun p => (callAt cl p).1) (fun p => (callAt cl p).2)
    (List.range' s (e - s)) [] []
  simpa using h

theorem getD_map_range2 {α : Type} (d : α) (f : ℕ → α) {s n i : ℕ} (h : i < n) :
    ((List.range' s n).map f).getD i d = f (s + i) := by
  rw [List.getD_eq_getElem?_getD, List.getElem?_map]
  rw [List.getElem?_eq_getElem (by simpa using h)]
  simp

/-- Claim C1 (amended): for a position in range, read_over_range writes, at
offset pos - range_start of both output strings, the pair produced by the
per-position call: if two or more of the four channel counts tie for the
maximum the call is ('N', chr(MIN_ASCII)); otherwise the strictly-highest
channel is called and the quality character encodes
`min(MAX_QUALITY, floor(-10*log10(other/molecule_count)))` (MAX_QUALITY when
`other` is 0), where `other` is the SUM OF THE THREE NON-CALLED CHANNEL
COUNTS — not molecule_count - max_count as the claim states. -/
theorem cluster_read_over_range_call (cl : Cluster) (s e pos : ℕ) (g a t c : ℤ)
    (hs : s ≤ pos) (he : pos < e)
    (hbc : cl.getBaseCountsByPosition pos = (g, a, t, c))
    (hmc : 0 < cl.moleculeCount) :
    ((cl.readOverRange s e).1.data.getD (pos - s) ' '
        = (callPosition g a t c cl.moleculeCount).1
      ∧ (cl.readOverRange s e).2.data.getD (pos - s) ' '
        = (callPosition g a t c cl.moleculeCount).2)
    ∧ (2 ≤ [g, a, t, c].count (max (max (max g a) t) c) →
        callPosition g a t c cl.moleculeCount = ('N', Char.ofNat MIN_ASCII))
    ∧ (a < g → t < g → c < g →
        callPosition g a t c cl.moleculeCount
          = ('G', qualityChar (a + t + c) cl.moleculeCount))
    ∧ (g < a → t < a → c < a →
        callPosition g a t c cl.moleculeCount
          = ('A', qualityChar (g + t + c) cl.moleculeCount))
    ∧ (g < t → a < t → c < t →
        callPosition g a t c cl.moleculeCount
          = ('T', qualityChar (g + a + c) cl.moleculeCount))
    ∧ (g < c → a < c → t < c →
        callPosition g a t c cl.moleculeCount
          = ('C', qualityChar (g + a + t) cl.moleculeCount))
    ∧ (∀ other : ℤ,
        (other = 0 → qualityChar other cl.moleculeCount
          = Char.ofNat ((MAX_QUALITY + MIN_ASCII).toNat))
        ∧ (other ≠ 0 → qualityChar other cl.moleculeCount
          = Char.ofNat ((min MAX_QUALITY
              ⌊(-10 : ℝ) * Real.logb 10 ((other : ℝ) / (cl.moleculeCount : ℝ))⌋
              + MIN_ASCII).toNat))) := by
  refine ⟨?_, callPosition_tie g a t c cl.moleculeCount,
          callPosition_uniqueG g a t c cl.moleculeCount,
          callPosition_uniqueA g a t c cl.moleculeCount,
          callPosition_uniqueT g a t c cl.moleculeCount,
          callPosition_uniqueC g a t c cl.moleculeCount, ?_⟩
  · have hcall : callAt cl pos = callPosition g a t c cl.moleculeCount := by
      unfold callAt
      rw [hbc]
    have hidx : pos - s < e - s := by omega
    have hsum : s + (pos - s) = pos := by omega
    rw [readOverRange_eq_map]
    constructor
    · show (String.mk _).data.getD (pos - s) ' ' = _
      rw [show (String.mk ((List.range' s (e - s)).map (fun p => (callAt cl p).1))).data
            = (List.range' s (e - s)).map (fun p => (callAt cl p).1) from rfl]
      rw [getD_map_range2 ' ' _ hidx, hsum, hcall]
    · show (String.mk _).data.getD (pos - s) ' ' = _
      rw [show (String.mk ((List.range' s (e - s)).map (fun p => (callAt cl p).2))).data
            = (List.range' s (e - s)).map (fun p => (callAt cl p).2) from rfl]
      rw [getD_map_range2 ' ' _ hidx, hsum, hcall]
  · intro other
    constructor
    · intro h0
      unfold qualityChar
      rw [qualityValue_zero other cl.moleculeCount h0]
    · intro hne
      unfold qualityChar
      rw [qualityValue_pos other cl.moleculeCount (by omega) hne]

theorem floor_ten_mul_logb (num den k : ℕ) (hnum : 0 < num) (hden : 0 < den)
    (hlow : 10 ^ k * den ^ 10 ≤ num ^ 10) (hhigh : num ^ 10 < 10 ^ (k + 1) * den ^ 10) :
    ⌊(10 : ℝ) * Real.logb 10 ((num : ℝ) / den)⌋ = k := by
  have hx : (0 : ℝ) < (num : ℝ) / den := by positivity
  have hmul : (10 : ℝ) * Real.logb 10 ((num : ℝ) / den)
      = Real.logb 10 (((num : ℝ) / den) ^ (10 : ℕ)) := by
    rw [Real.logb_pow]
    norm_num
  rw [hmul]
  have hxp : (0 : ℝ) < ((num : ℝ) / den) ^ (10 : ℕ) := by positivity
  rw [Int.floor_eq_iff]
  constructor
  · rw [Real.le_logb_iff_rpow_le (by norm_num) hxp]
    rw [show ((((k : ℕ) : ℤ)) : ℝ) = ((k : ℕ) : ℝ) by push_cast; ring]
    rw [Real.rpow_natCast, div_pow, le_div_iff₀ (by positivity)]
    exact_mod_cast hlow
  · rw [Real.logb_lt_iff_lt_rpow (by norm_num) hxp]
    rw [show ((((k : ℕ) : ℤ)) : ℝ) + 1 = ((k + 1 : ℕ) : ℝ) by push_cast; ring]
    rw [Real.rpow_natCast, div_pow, div_lt_iff₀ (by positivity)]
    exact_mod_cast hhigh

/-- Claim C1, as stated, fails: with counts (G,A,T,C) = (5,0,0,0) and
molecule_count = 10, the code computes other = 0+0+0 = 0 (sum of non-called
channels) and emits maximum quality 'J', whereas the claim's
other = molecule_count - max_count = 5 gives p = 1/2 and quality character
chr(min(41, floor(-10*log10(1/2))) + 33) = chr(36) = '$'. -/
theorem cluster_read_over_range_cex :
    c1CexCluster.readOverRange 0 1 = ("G", "J")
    ∧ Char.ofNat ((min MAX_QUALITY
          ⌊(-10 : ℝ) * Real.logb 10
              (((c1CexCluster.moleculeCount - 5 : ℤ) : ℝ) / ((c1CexCluster.moleculeCount : ℤ) : ℝ))⌋
          + MIN_ASCII).toNat) = '$'
    ∧ ('$' : Char) ≠ 'J' := by
  refine ⟨?_, ?_, by decide⟩
  · have hcall : callAt c1CexCluster 0 = ('G', 'J') := by
      unfold callAt
      rw [show c1CexCluster.getBaseCountsByPosition 0 = ((5 : ℤ), (0 : ℤ), (0 : ℤ), (0 : ℤ))
        from rfl]
      rw [show c1CexCluster.moleculeCount = 10 from rfl]
      rw [callPosition_uniqueG 5 0 0 0 10 (by omega) (by omega) (by omega)]
      have hq : qualityChar (0 + 0 + 0) 10 = 'J' := by
        unfold qualityChar
        rw [qualityValue_zero (0 + 0 + 0) 10 (by norm_num)]
        decide
      rw [hq]
    rw [readOverRange_eq_map]
    rw [show List.range' 0 (1 - 0) = [0] from rfl]
    simp only [List.map_cons, List.map_nil, hcall]
  · rw [show ((c1CexCluster.moleculeCount - 5 : ℤ) : ℝ) = (5 : ℝ) by norm_num [c1CexCluster]]
    rw [show ((c1CexCluster.moleculeCount : ℤ) : ℝ) = (10 : ℝ) by norm_num [c1CexCluster]]
    have hlogb : (-10 : ℝ) * Real.logb 10 ((5 : ℝ) / 10)
        = (10 : ℝ) * Real.logb 10 ((2 : ℝ) / 1) := by
      rw [show ((5 : ℝ) / 10) = ((2 : ℝ) / 1)⁻¹ by norm_num, Real.logb_inv]
      ring
    rw [hlogb, show ((2 : ℝ) / 1) = (((2 : ℕ) : ℝ)) / (((1 : ℕ) : ℝ)) by norm_num]
    rw [floor_ten_mul_logb 2 1 3 (by omega) (by omega) (by norm_num) (by norm_num)]
    decide

theorem cluster_read_over_range_witness :
    (0 : ℕ) ≤ 0 ∧ (0 : ℕ) < 1
    ∧ c1WitnessCluster.getBaseCountsByPosition 0 = (0, 1, 0, 0)
    ∧ (0 : ℤ) < c1WitnessCluster.moleculeCount
    ∧ (c1WitnessCluster.readOverRange 0 1).1.data.getD 0 ' ' = 'A'
    ∧ (c1WitnessCluster.readOverRange 0 1).2.data.getD 0 ' ' = 'J' := by
  have h := cluster_read_over_range_call c1WitnessCluster 0 1 0 0 1 0 0 (le_refl 0)
    (by omega) rfl (by decide)
  have hA := h.2.2.2.1 (by decide) (by decide) (by decide)
  have hq : qualityChar (0 + 0 + 0) c1WitnessCluster.moleculeCount = 'J' := by
    have := (h.2.2.2.2.2.2 (0 + 0 + 0)).1 (by norm_num)
    rw [this]
    decide
  refine ⟨le_refl 0, by omega, rfl, by decide, ?_, ?_⟩
  · rw [h.1.1, hA]
  · rw [h.1.2, hA, hq]

/-- Claim C9 is about code that cannot run: read_in_3_prime_direction always
raises AttributeError at `quality_scores.reverse()` instead of appending the
reverse-complemented sequence and reversed quality string. -/
theorem read_in_3_prime_direction_raises (cl : Cluster) (readLength : ℕ)
    (barcodeData : ℕ × ℕ × ℕ × ℕ) (adapterSequence : String) :
    cl.readIn3PrimeDirection readLength barcodeData adapterSequence
      = .error "AttributeError: str object has no attribute reverse" := rfl

/-- Claim C6 fails on the code: deserialize(serialize(cluster)) reproduces
run id, molecule count, diameter, lane, coordinates, molecule, base-count
matrix and called fields, but returns cluster_id as the STRING "7" (the int()
conversion is missing) and forward_is_5_prime as the STRING "True", so the
round trip is not the identity. -/
theorem cluster_serialize_deserialize_not_identity :
    Cluster.deserialize (Cluster.serialize c6Cluster)
      = some { c6Cluster with clusterId := .str "7", forwardIs5Prime := .str "True" }
    ∧ ({ c6Cluster with clusterId := PyVal.str "7", forwardIs5Prime := PyVal.str "True" }
        : Cluster) ≠ c6Cluster := by
  constructor
  · decide
  · decide
